import Mathlib

/-!
Verification development for the müllbot reminder bot (src/müllbot.py).

The source is a python-telegram-bot (v13) handler module.  The pure parts
(argument validation, date parsing, job-name construction, queue bookkeeping)
are embedded directly from the source; behaviour that lives in the
dependencies (the job queue / scheduler, the pickle persistence layer) is
modelled explicitly, with a doc comment on each such definition saying what
it models and where the behaviour comes from.
-/

namespace Muellbot

/-- ASCII digit test, the character class matched by the CPython
`_strptime` regular expressions for `%d`, `%m`, `%Y` (restricted to ASCII;
non-ASCII unicode digits are outside the scope of this embedding). -/
def isDig (c : Char) : Bool := 48 ≤ c.toNat && c.toNat ≤ 57

/-- Numeric value of an ASCII digit character. -/
def digVal (c : Char) : Nat := c.toNat - 48

/-- The ASCII digit character for a value below ten. -/
def digChar : Nat → Char
  | 0 => '0' | 1 => '1' | 2 => '2' | 3 => '3' | 4 => '4'
  | 5 => '5' | 6 => '6' | 7 => '7' | 8 => '8' | 9 => '9'
  | _ => '*'

/-- Test that every character is an ASCII digit (`l.all isDig`). -/
def allDigits (l : List Char) : Bool := l.all isDig

/-- Decimal value of a digit list, most significant first
(the value computed by Python `int` on a digit string). -/
def digitsVal (l : List Char) : Nat := l.foldl (fun n c => 10 * n + digVal c) 0

/-- Split a character list on a separator character, keeping empty pieces:
the behaviour of Python `str.split(sep)` for a one-character separator. -/
def splitOnChar (sep : Char) : List Char → List (List Char)
  | [] => [[]]
  | c :: rest =>
    if c = sep then [] :: splitOnChar sep rest
    else
      match splitOnChar sep rest with
      | [] => [[c]]
      | g :: gs => (c :: g) :: gs

/-- A naive calendar datetime at midnight, as produced by
`datetime.strptime(_, "%d.%m.%Y")` (source line 89).  Only midnight
datetimes occur in the program, so the time-of-day is omitted. -/
structure Date where
  year : Nat
  month : Nat
  day : Nat
deriving DecidableEq, Repr

/-- Gregorian leap-year rule (as used by Python `datetime`). -/
def isLeap (y : Nat) : Bool := y % 4 == 0 && (y % 100 != 0 || y % 400 == 0)

/-- Number of days in a month (Python `calendar`/`datetime` rule). -/
def daysInMonth (y m : Nat) : Nat :=
  if m = 2 then (if isLeap y then 29 else 28)
  else if m = 4 ∨ m = 6 ∨ m = 9 ∨ m = 11 then 30
  else 31

/-- Days in year `y` strictly before month `m` (months are 1-based). -/
def daysBeforeMonth (y : Nat) : Nat → Nat
  | 0 => 0
  | m + 1 => daysBeforeMonth y m + if m = 0 then 0 else daysInMonth y m

/-- Proleptic-Gregorian day number (Rata Die: 0001-01-01 is day 1), the
ordinal Python `datetime` arithmetic is based on.  Used to compare and
relate dates chronologically. -/
def toDays (d : Date) : Nat :=
  365 * (d.year - 1) + (d.year - 1) / 4 + (d.year - 1) / 400
    + daysBeforeMonth d.year d.month + d.day - (d.year - 1) / 100

/-- The dates representable by Python `datetime`
(year 1..9999, valid month, valid day of month). -/
def validDate (d : Date) : Prop :=
  1 ≤ d.year ∧ d.year ≤ 9999 ∧ 1 ≤ d.month ∧ d.month ≤ 12 ∧
    1 ≤ d.day ∧ d.day ≤ daysInMonth d.year d.month

instance (d : Date) : Decidable (validDate d) := by
  unfold validDate; infer_instance

/-- CPython `datetime.strptime(s, "%d.%m.%Y")` (source line 89), on the character
list of `s`, returning `none` where Python raises `ValueError`.  The
`_strptime` regex accepts one- or two-digit day (`3[01]|[12]\d|0[1-9]|[1-9]`)
and month (`1[0-2]|0[1-9]|[1-9]`), and exactly four digits for the year;
the datetime constructor then enforces year at least 1 and a valid day of
month.  The value bound `digitsVal ys ≤ 9999` is implied by the four-digit
match and recorded here only so that it is available by computation. -/
def parseDMY (l : List Char) : Option Date :=
  match splitOnChar '.' l with
  | [ds, ms, ys] =>
    if ds ≠ [] ∧ ds.length ≤ 2 ∧ allDigits ds ∧
       ms ≠ [] ∧ ms.length ≤ 2 ∧ allDigits ms ∧
       ys.length = 4 ∧ allDigits ys then
      if 1 ≤ digitsVal ds ∧ digitsVal ds ≤ 31 ∧
         1 ≤ digitsVal ms ∧ digitsVal ms ≤ 12 ∧
         1 ≤ digitsVal ys ∧ digitsVal ys ≤ 9999 ∧
         digitsVal ds ≤ daysInMonth (digitsVal ys) (digitsVal ms) then
        some ⟨digitsVal ys, digitsVal ms, digitsVal ds⟩
      else none
    else none
  | _ => none

/-- CPython `datetime.strptime(s, "%d.%m.%Y")` on a string. -/
def strptimeDMY (s : String) : Option Date := parseDMY s.data

/-- Python `due - timedelta(days=1)` (source line 112) for a midnight datetime:
the previous calendar day, or `none` for the single input 0001-01-01 where
Python raises `OverflowError` (`datetime.min` cannot be decremented). -/
def predDay (d : Date) : Option Date :=
  if 1 < d.day then some ⟨d.year, d.month, d.day - 1⟩
  else if 1 < d.month then some ⟨d.year, d.month - 1, daysInMonth d.year (d.month - 1)⟩
  else if 1 < d.year then some ⟨d.year - 1, 12, 31⟩
  else none

/-- Source line 44: `trashtypes = "bio/rest/papier/plastik".split("/")`. -/
def trashtypes : List String :=
  (splitOnChar '/' "bio/rest/papier/plastik".data).map String.mk

/-- The `emojis` table (source lines 36-41): category token to the list of
emoji strings used in the alarm message. -/
def emojis : List (String × List String) :=
  [("bio", [String.mk [Char.ofNat 0x1F346], String.mk [Char.ofNat 0x1F955],
            String.mk [Char.ofNat 0x1F96C], String.mk [Char.ofNat 0x1F966]]),
   ("rest", [String.mk [Char.ofNat 0x1F961]]),
   ("papier", [String.mk [Char.ofNat 0x1F4DC], String.mk [Char.ofNat 0x1F4F0],
               String.mk [Char.ofNat 0x1F3AB]]),
   ("plastik", [String.mk [Char.ofNat 0x2678], String.mk [Char.ofNat 0x1F36C]])]

/-- Decimal digits of `n`, most significant first, via fuel-bounded
division (structural, so that the kernel can evaluate it).  The fuel
`n + 1` always suffices. -/
def natDigitsAux : Nat → Nat → List Nat
  | 0, _ => []
  | fuel + 1, n => if n < 10 then [n] else natDigitsAux fuel (n / 10) ++ [n % 10]

/-- Decimal digits of `n`, most significant first. -/
def natDigits (n : Nat) : List Nat := natDigitsAux (n + 1) n

/-- Python `str` of a non-negative integer, as a character list. -/
def natStr (n : Nat) : List Char := (natDigits n).map digChar

/-- Python `str(chat_id)` for an integer (Telegram chat ids may be
negative): an optional leading minus sign, then decimal digits. -/
def intStr (a : Int) : List Char :=
  if a < 0 then '-' :: natStr a.natAbs else natStr a.toNat

/-- Python `str(due)` for the midnight datetime `due`: the fixed-width
19-character form `YYYY-MM-DD 00:00:00` (year zero-padded to four digits,
month and day to two; the time part is always midnight here). -/
def dateStr (dt : Date) : List Char :=
  [digChar (dt.year / 1000), digChar (dt.year / 100 % 10),
   digChar (dt.year / 10 % 10), digChar (dt.year % 10), '-',
   digChar (dt.month / 10), digChar (dt.month % 10), '-',
   digChar (dt.day / 10), digChar (dt.day % 10),
   ' ', '0', '0', ':', '0', '0', ':', '0', '0']

/-- Source lines 76-77, `build_job_id(chat_id, due, trash_type)`:
plain concatenation `str(chat_id) + str(due) + str(trash_type)`. -/
def build_job_id (chat_id : Int) (due : Date) (trash_type : String) : String :=
  String.mk (intStr chat_id) ++ String.mk (dateStr due) ++ trash_type

/-- The `context=cbcontext` dict registered with each job (source lines
104-108): it is built with exactly the keys `chat_id`, `trash_type` and
`due`, modelled as the three fields of this structure. -/
structure JobCtx where
  chat_id : Int
  trash_type : String
  due : Date
deriving DecidableEq, Repr

/-- One entry of the job queue: its `name` (the job identifier), the
`run_once` target time `time` (the `alarm_due` datetime) and its context. -/
structure Job where
  name : String
  time : Date
  ctx : JobCtx
deriving DecidableEq, Repr

/-- The in-memory job queue.  Modelled from the dependency:
python-telegram-bot v13 keeps `run_once` jobs in an APScheduler memory
job store, which stores entries sorted by their next run time, so
`job_queue.jobs()` enumerates jobs in ascending fire-time order. -/
structure BotState where
  queue : List Job
deriving DecidableEq, Repr

/-- The empty job queue a freshly started process has. -/
def emptyState : BotState := ⟨[]⟩

/-- Insert a job keeping the queue sorted by fire time (the memory job
store's sorted insertion; ties go after existing entries). -/
def insertJob (j : Job) : List Job → List Job
  | [] => [j]
  | k :: rest =>
    if toDays k.time ≤ toDays j.time then k :: insertJob j rest
    else j :: k :: rest

/-- Source lines 66-73, `remove_job_if_exists(name, context)`: look up
all jobs with the given name; if there are none return `false`, otherwise
remove them all and return `true`. -/
def remove_job_if_exists (name : String) (q : List Job) : List Job × Bool :=
  let current_jobs := q.filter (fun j => j.name == name)
  if current_jobs.isEmpty then (q, false)
  else (q.filter (fun j => !(j.name == name)), true)

/-- The observable outcome of the `add` handler: which reply the user got
(and, for `notedThenCrash`, that the handler died with `OverflowError`
after sending the `Noted ...` reply at source line 110, because
`due - timedelta(days=1)` at line 112 is out of range). -/
inductive AddReply
  | usage | badDate | badType | notedThenCrash | noted
deriving DecidableEq, Repr

/-- The `add` handler (source lines 79-114): validate the argument count,
the date (`strptime`), and the category; then compute the job identifier,
remove any existing job with that identifier, and schedule the alarm one
day before the due date. -/
def add (st : BotState) (chat_id : Int) (args : List String) : BotState × AddReply :=
  match args with
  | [arg0, arg1] =>
    match strptimeDMY arg0 with
    | none => (st, .badDate)
    | some due =>
      let trash_type := arg1
      if trash_type ∈ trashtypes then
        let job_identifier := build_job_id chat_id due trash_type
        let q1 := (remove_job_if_exists job_identifier st.queue).1
        match predDay due with
        | none => (⟨q1⟩, .notedThenCrash)
        | some alarm_due =>
          (⟨insertJob ⟨job_identifier, alarm_due, ⟨chat_id, trash_type, due⟩⟩ q1⟩, .noted)
      else (st, .badType)
  | _ => (st, .usage)

/-- The observable outcome of the `remove` handler. -/
inductive RemoveReply
  | usage | badDate | badType | removed | notRemoved
deriving DecidableEq, Repr

/-- The `remove` handler (source lines 117-141): same validation as `add`,
then `remove_job_if_exists` on the computed job identifier; replies with
success exactly when a job existed. -/
def remove (st : BotState) (chat_id : Int) (args : List String) : BotState × RemoveReply :=
  match args with
  | [arg0, arg1] =>
    match strptimeDMY arg0 with
    | none => (st, .badDate)
    | some due =>
      let trash_type := arg1
      if trash_type ∈ trashtypes then
        let job_id := build_job_id chat_id due trash_type
        let res := remove_job_if_exists job_id st.queue
        (⟨res.1⟩, if res.2 then .removed else .notRemoved)
      else (st, .badType)
  | _ => (st, .usage)

/-- The `show_list` handler (source lines 144-155), reduced to the data it
renders: for every job in the queue, in queue order, the pair of the due
date (`job.context['due']`) and the category (`job.context['trash_type']`).
The surrounding message text and `strftime` formatting are elided as
external presentation. -/
def show_list (st : BotState) : List (Date × String) :=
  st.queue.map (fun j => (j.ctx.due, j.ctx.trash_type))

/-- The `alarm` callback (source lines 55-63), reduced to the data it
sends: the recipient chat id and a message built from the category and the
emoji table `emojis[trash_type]`.  A missing emoji key would be a Python
`KeyError`, modelled by `none`. -/
def alarmMsg (j : Job) : Option (Int × String) :=
  (emojis.lookup j.ctx.trash_type).map
    (fun es => (j.ctx.chat_id, j.ctx.trash_type ++ ": " ++ String.join es))

/-- Modelled from the spec: one run of the scheduler at day number `now`
(the spec's Scheduler, §4.2 — the external job-queue engine, not part of
src/).  Every armed job whose target time is at or before `now` fires —
also when the target was already past at registration — and a fired
`run_once` job leaves the queue; the rest stay armed.  Returns the new
state and the list of jobs that fired. -/
def schedulerRun (now : Nat) (st : BotState) : BotState × List Job :=
  (⟨st.queue.filter (fun j => !(toDays j.time ≤ now : Bool))⟩,
   st.queue.filter (fun j => (toDays j.time ≤ now : Bool)))

/-- One externally triggered step of the system: an `/add` command, a
`/remove` command, or a scheduler run. -/
inductive Op
  | addOp (chat : Int) (args : List String)
  | removeOp (chat : Int) (args : List String)
  | tick (now : Nat)

/-- Apply one step to the bot state. -/
def applyOp (st : BotState) : Op → BotState
  | .addOp c a => (add st c a).1
  | .removeOp c a => (remove st c a).1
  | .tick n => (schedulerRun n st).1

/-- All states reachable from a fresh process by a sequence of steps. -/
def runOps (ops : List Op) : BotState := ops.foldl applyOp emptyState

/-- Modelled from the dependency: the contents of the `müllstore.pkl`
pickle file written by python-telegram-bot v13 `PicklePersistence`
(source line 166).  That class persists `user_data`, `chat_data`,
`bot_data` (and conversation states) and nothing else; job-queue entries
are not part of persisted state.  None of the handlers in src/ ever read
or write these dicts, so their value types are left abstract as strings. -/
structure PickleData where
  user_data : List (Int × String)
  chat_data : List (Int × String)
  bot_data : List String
deriving DecidableEq, Repr

/-- A running process: the durable pickle store plus the in-memory job
queue. -/
structure ProcState where
  store : PickleData
  jq : BotState
deriving DecidableEq, Repr

/-- A process started on an empty store. -/
def startState : ProcState := ⟨⟨[], [], []⟩, emptyState⟩

/-- Process-level `add`: the handler mutates only the job queue;
no handler in src/ writes to the persisted dicts. -/
def procAdd (p : ProcState) (chat : Int) (args : List String) : ProcState × AddReply :=
  (⟨p.store, (add p.jq chat args).1⟩, (add p.jq chat args).2)

/-- Process-level `remove`. -/
def procRemove (p : ProcState) (chat : Int) (args : List String) : ProcState × RemoveReply :=
  (⟨p.store, (remove p.jq chat args).1⟩, (remove p.jq chat args).2)

/-- Modelled from the dependency and `main()` (source lines 158-184):
restarting the process reloads the pickle file (which holds no job data)
and starts a new `Updater`, whose job queue is empty; `main` registers the
four command handlers and polls, and contains no code that re-registers
jobs from anywhere. -/
def restart (p : ProcState) : ProcState := ⟨p.store, emptyState⟩

/-- Modelled from the spec: the per-entry state machine of the scheduler
(§4.2) — an entry is `armed` until it either fires or is cancelled, and
never leaves `fired` or `cancelled`. -/
inductive EntryState
  | armed | fired | cancelled
deriving DecidableEq, Repr

/-- An event that can hit a scheduler entry: the timer firing naturally,
or a cancellation (a `Remove`) arriving. -/
inductive SchedulerEvent
  | fireEvt | cancelEvt
deriving DecidableEq, Repr

/-- Modelled from the spec: one atomic event against a scheduler entry,
tracking how many notifications were sent and how many cancellations won.
From `armed`, a fire event sends the notification and moves to `fired`; a
cancel event deletes the entry and moves to `cancelled`; in `fired` or
`cancelled` both events are no-ops. -/
def entryStep : EntryState × Nat × Nat → SchedulerEvent → EntryState × Nat × Nat
  | (.armed, f, c), .fireEvt => (.fired, f + 1, c)
  | (.armed, f, c), .cancelEvt => (.cancelled, f, c + 1)
  | s, _ => s

/-- Run a sequence of events (one interleaving of concurrent fire and
cancel attempts) against a fresh armed entry. -/
def entryRun (evts : List SchedulerEvent) : EntryState × Nat × Nat :=
  evts.foldl entryStep (.armed, 0, 0)

/-- The invariant all reachable bot states satisfy: every queued job carries
a validated category whose emoji lookup succeeds, a valid due date one day
after its fire time, and the queue is sorted by fire time. -/
def Good (st : BotState) : Prop :=
  (∀ j ∈ st.queue, j.ctx.trash_type ∈ trashtypes ∧ validDate j.ctx.due ∧
      toDays j.ctx.due = toDays j.time + 1) ∧
  st.queue.Pairwise (fun a b => toDays a.time ≤ toDays b.time)

/-- Read a digit list back into a number (left fold, base ten). -/
def unDigits (l : List Nat) : Nat := l.foldl (fun a d => 10 * a + d) 0

/-! ### Calendar lemmas -/

theorem strptime_valid {s : String} {d : Date} (h : strptimeDMY s = some d) :
    validDate d := by
  unfold strptimeDMY parseDMY at h
  rcases hsplit : splitOnChar '.' s.data with _ | ⟨ds, _ | ⟨ms, _ | ⟨ys, _ | _⟩⟩⟩ <;>
      rw [hsplit] at h
  all_goals try exact Option.noConfusion h
  rw [Option.ite_none_right_eq_some, Option.ite_none_right_eq_some,
      Option.some.injEq] at h
  obtain ⟨-, hrange, rfl⟩ := h
  unfold validDate
  simp only []
  generalize daysInMonth (digitsVal ys) (digitsVal ms) = K at hrange ⊢
  omega

theorem dbm_succ (y m : Nat) (h : 1 ≤ m) :
    daysBeforeMonth y (m + 1) = daysBeforeMonth y m + daysInMonth y m := by
  have : ¬ m = 0 := by omega
  simp [daysBeforeMonth, this]

theorem dbm_one (y : Nat) : daysBeforeMonth y 1 = 0 := by
  simp [daysBeforeMonth]

theorem dbm_twelve (y : Nat) :
    daysBeforeMonth y 12 = 334 + (if isLeap y then 1 else 0) := by
  rw [dbm_succ y 11 (by omega), dbm_succ y 10 (by omega), dbm_succ y 9 (by omega),
      dbm_succ y 8 (by omega), dbm_succ y 7 (by omega), dbm_succ y 6 (by omega),
      dbm_succ y 5 (by omega), dbm_succ y 4 (by omega), dbm_succ y 3 (by omega),
      dbm_succ y 2 (by omega), dbm_succ y 1 (by omega), dbm_one]
  unfold daysInMonth
  by_cases hL : isLeap y <;> norm_num [hL]

theorem isLeap_iff (n : Nat) :
    isLeap n = true ↔ (n % 4 = 0 ∧ (n % 100 ≠ 0 ∨ n % 400 = 0)) := by
  simp [isLeap, Bool.and_eq_true, Bool.or_eq_true, beq_iff_eq, bne_iff_ne]

theorem predDay_some {d : Date} (hv : validDate d) (hne : d ≠ ⟨1, 1, 1⟩) :
    ∃ e, predDay d = some e := by
  obtain ⟨y, m, day⟩ := d
  unfold validDate at hv
  simp only [] at hv
  unfold predDay
  simp only []
  split
  · exact ⟨_, rfl⟩
  · split
    · exact ⟨_, rfl⟩
    · split
      · exact ⟨_, rfl⟩
      · exfalso
        apply hne
        have : y = 1 ∧ m = 1 ∧ day = 1 := by omega
        simp [this.1, this.2.1, this.2.2]

theorem toDays_predDay {d e : Date} (hv : validDate d) (h : predDay d = some e) :
    toDays e + 1 = toDays d := by
  obtain ⟨y, m, day⟩ := d
  unfold validDate at hv
  simp only [] at hv
  unfold predDay at h
  simp only [] at h
  split at h
  · -- same month, previous day
    cases h
    unfold toDays
    simp only []
    generalize daysBeforeMonth y m = D
    omega
  · split at h
    · -- first of a month after January: previous month's last day
      cases h
      rename_i hday hm
      have hm2 : 2 ≤ m := by omega
      have hday1 : day = 1 := by omega
      unfold toDays
      simp only []
      obtain ⟨k, rfl⟩ : ∃ k, m = k + 1 := ⟨m - 1, by omega⟩
      rw [show k + 1 - 1 = k by omega, dbm_succ y k (by omega)]
      generalize daysBeforeMonth y k = D
      omega
    · split at h
      · -- January the 1st: December 31 of the previous year
        cases h
        have hday1 : day = 1 := by omega
        have hm1 : m = 1 := by omega
        subst hday1 hm1
        unfold toDays
        simp only []
        rw [dbm_twelve, dbm_one]
        have hL := isLeap_iff (y - 1)
        have h4 : y - 1 - 1 = y - 2 := by omega
        rw [h4]
        split
        · rename_i hLeap
          have := hL.mp hLeap
          omega
        · rename_i hLeap
          have hnc : ¬ ((y - 1) % 4 = 0 ∧ ((y - 1) % 100 ≠ 0 ∨ (y - 1) % 400 = 0)) :=
            fun hc => hLeap (hL.mpr hc)
          omega
      · exact Option.noConfusion h

/-! ### Queue lemmas -/

theorem mem_insertJob {x j : Job} {q : List Job} :
    x ∈ insertJob j q ↔ x = j ∨ x ∈ q := by
  induction q with
  | nil => simp [insertJob]
  | cons k rest ih =>
    unfold insertJob
    split
    · rw [List.mem_cons, ih, List.mem_cons]
      tauto
    · exact List.mem_cons

theorem pairwise_insertJob {j : Job} {q : List Job}
    (h : q.Pairwise (fun a b => toDays a.time ≤ toDays b.time)) :
    (insertJob j q).Pairwise (fun a b => toDays a.time ≤ toDays b.time) := by
  induction q with
  | nil => simp [insertJob]
  | cons k rest ih =>
    rw [List.pairwise_cons] at h
    unfold insertJob
    split
    · rename_i hle
      rw [List.pairwise_cons]
      refine ⟨fun x hx => ?_, ih h.2⟩
      rcases mem_insertJob.mp hx with rfl | hx
      · exact hle
      · exact h.1 x hx
    · rename_i hgt
      rw [List.pairwise_cons]
      refine ⟨fun x hx => ?_, List.pairwise_cons.mpr h⟩
      rcases List.mem_cons.mp hx with rfl | hx
      · omega
      · exact le_trans (by omega) (h.1 x hx)

theorem countP_insertJob (p : Job → Bool) (j : Job) (q : List Job) :
    (insertJob j q).countP p = q.countP p + if p j then 1 else 0 := by
  induction q with
  | nil => simp [insertJob, List.countP_cons]
  | cons k rest ih =>
    unfold insertJob
    split
    all_goals simp only [List.countP_cons, ih]
    all_goals omega

theorem rjie_mem {k : String} {q : List Job} {x : Job} :
    x ∈ (remove_job_if_exists k q).1 ↔ x ∈ q ∧ x.name ≠ k := by
  unfold remove_job_if_exists
  simp only []
  split
  · rename_i hemp
    rw [List.isEmpty_iff, List.filter_eq_nil_iff] at hemp
    simp only [beq_iff_eq] at hemp
    constructor
    · intro hx
      exact ⟨hx, hemp x hx⟩
    · intro hx
      exact hx.1
  · simp [List.mem_filter]

theorem rjie_countP (k : String) (q : List Job) :
    (remove_job_if_exists k q).1.countP (fun j => j.name == k) = 0 := by
  rw [List.countP_eq_zero]
  intro a ha
  simp only [beq_iff_eq]
  exact (rjie_mem.mp ha).2

theorem rjie_found {k : String} {q : List Job} :
    (remove_job_if_exists k q).2 = true ↔ ∃ j ∈ q, j.name = k := by
  unfold remove_job_if_exists
  simp only []
  split
  · rename_i hemp
    rw [List.isEmpty_iff, List.filter_eq_nil_iff] at hemp
    simp only [beq_iff_eq] at hemp
    simp only [Bool.false_eq_true, false_iff]
    rintro ⟨j, hj, rfl⟩
    exact hemp j hj rfl
  · rename_i hemp
    rw [List.isEmpty_iff] at hemp
    rcases hne : (q.filter (fun j => j.name == k)) with _ | ⟨j, rest⟩
    · exact absurd hne hemp
    · have hj : j ∈ q.filter (fun j => j.name == k) := by rw [hne]; exact List.mem_cons_self _ _
      rw [List.mem_filter, beq_iff_eq] at hj
      exact ⟨fun _ => ⟨j, hj.1, hj.2⟩, fun _ => rfl⟩

theorem rjie_not_found {k : String} {q : List Job}
    (h : (remove_job_if_exists k q).2 = false) :
    (remove_job_if_exists k q).1 = q := by
  unfold remove_job_if_exists at h ⊢
  simp only [] at h ⊢
  split at h
  · rename_i hemp
    simp [hemp]
  · simp at h

theorem rjie_pairwise {k : String} {q : List Job}
    (h : q.Pairwise (fun a b => toDays a.time ≤ toDays b.time)) :
    (remove_job_if_exists k q).1.Pairwise (fun a b => toDays a.time ≤ toDays b.time) := by
  unfold remove_job_if_exists
  simp only []
  split
  · exact h
  · exact h.sublist (List.filter_sublist q)

/-! ### Reachability invariant -/

theorem good_empty : Good emptyState := by
  constructor <;> simp [emptyState]

theorem good_add (st : BotState) (c : Int) (a : List String) (h : Good st) :
    Good (add st c a).1 := by
  unfold add
  rcases a with _ | ⟨a0, _ | ⟨a1, _ | _⟩⟩ <;> simp only [] <;> try exact h
  rcases hp : strptimeDMY a0 with _ | due
  · exact h
  · simp only []
    split
    · rename_i htt
      rcases hpd : predDay due with _ | alarm_due
      · simp only []
        constructor
        · intro j hj
          exact h.1 j (rjie_mem.mp hj).1
        · exact rjie_pairwise h.2
      · simp only []
        have hvd : validDate due := strptime_valid hp
        constructor
        · intro j hj
          rcases mem_insertJob.mp hj with rfl | hj
          · exact ⟨htt, hvd, (toDays_predDay hvd hpd).symm⟩
          · exact h.1 j (rjie_mem.mp hj).1
        · exact pairwise_insertJob (rjie_pairwise h.2)
    · exact h

theorem good_remove (st : BotState) (c : Int) (a : List String) (h : Good st) :
    Good (remove st c a).1 := by
  unfold remove
  rcases a with _ | ⟨a0, _ | ⟨a1, _ | _⟩⟩ <;> simp only [] <;> try exact h
  rcases hp : strptimeDMY a0 with _ | due
  · exact h
  · simp only []
    split
    · constructor
      · intro j hj
        exact h.1 j (rjie_mem.mp hj).1
      · exact rjie_pairwise h.2
    · exact h

theorem good_tick (st : BotState) (n : Nat) (h : Good st) :
    Good (schedulerRun n st).1 := by
  unfold schedulerRun
  constructor
  · intro j hj
    exact h.1 j (List.mem_filter.mp hj).1
  · exact h.2.sublist (List.filter_sublist st.queue)

theorem good_runOps (ops : List Op) : Good (runOps ops) := by
  suffices hgen : ∀ st, Good st → Good (ops.foldl applyOp st) from hgen emptyState good_empty
  induction ops with
  | nil => exact fun st h => h
  | cons op rest ih =>
    intro st h
    rw [List.foldl_cons]
    apply ih
    cases op with
    | addOp c a => exact good_add st c a h
    | removeOp c a => exact good_remove st c a h
    | tick n => exact good_tick st n h

/-! ### Handler shapes -/

theorem trashtypes_eq : trashtypes = ["bio", "rest", "papier", "plastik"] := rfl

theorem add_eq_of_valid (st : BotState) (chat : Int) (ds t : String) (due alarm : Date)
    (h1 : strptimeDMY ds = some due) (h2 : t ∈ trashtypes)
    (hpd : predDay due = some alarm) :
    add st chat [ds, t] =
      (⟨insertJob ⟨build_job_id chat due t, alarm, ⟨chat, t, due⟩⟩
          (remove_job_if_exists (build_job_id chat due t) st.queue).1⟩, .noted) := by
  unfold add
  simp only [h1]
  rw [if_pos h2]
  simp only [hpd]

theorem remove_eq_of_valid (st : BotState) (chat : Int) (ds t : String) (due : Date)
    (h1 : strptimeDMY ds = some due) (h2 : t ∈ trashtypes) :
    remove st chat [ds, t] =
      (⟨(remove_job_if_exists (build_job_id chat due t) st.queue).1⟩,
       if (remove_job_if_exists (build_job_id chat due t) st.queue).2 then
         .removed else .notRemoved) := by
  unfold remove
  simp only [h1]
  rw [if_pos h2]

theorem add_countP_key (st : BotState) (chat : Int) (ds t : String) (due : Date)
    (h1 : strptimeDMY ds = some due) (h2 : t ∈ trashtypes) (h3 : due ≠ ⟨1, 1, 1⟩) :
    ((add st chat [ds, t]).1.queue.countP
        (fun j => j.name == build_job_id chat due t)) = 1 := by
  obtain ⟨alarm, hpd⟩ := predDay_some (strptime_valid h1) h3
  rw [add_eq_of_valid st chat ds t due alarm h1 h2 hpd]
  simp only []
  rw [countP_insertJob]
  rw [rjie_countP]
  simp

/-! ### Claim theorems -/

/-- C1 (amended): for every valid recipient, date and category whose parsed
due date is not 0001-01-01 (the one date whose fire-time computation
overflows, see the counterexample), after an Add the queue holds exactly
one job with that JobKey, and after a second Add with the same key it
still holds exactly one: the prior record and timer are replaced, never
duplicated. -/
theorem add_unique_key_amended (st : BotState) (chat : Int) (ds t : String) (due : Date)
    (h1 : strptimeDMY ds = some due) (h2 : t ∈ trashtypes) (h3 : due ≠ ⟨1, 1, 1⟩) :
    ((add st chat [ds, t]).1.queue.countP
        (fun j => j.name == build_job_id chat due t)) = 1 ∧
    ((add (add st chat [ds, t]).1 chat [ds, t]).1.queue.countP
        (fun j => j.name == build_job_id chat due t)) = 1 :=
  ⟨add_countP_key st chat ds t due h1 h2 h3,
   add_countP_key (add st chat [ds, t]).1 chat ds t due h1 h2 h3⟩

/-- Witness for C1 at a concrete input. -/
theorem add_unique_key_witness :
    strptimeDMY "24.12.2025" = some ⟨2025, 12, 24⟩ ∧
    "bio" ∈ trashtypes ∧
    ((add emptyState 42 ["24.12.2025", "bio"]).1.queue.countP
        (fun j => j.name == build_job_id 42 ⟨2025, 12, 24⟩ "bio")) = 1 ∧
    ((add (add emptyState 42 ["24.12.2025", "bio"]).1 42 ["24.12.2025", "bio"]).1.queue.countP
        (fun j => j.name == build_job_id 42 ⟨2025, 12, 24⟩ "bio")) = 1 :=
  ⟨by decide, by decide,
   (add_unique_key_amended emptyState 42 "24.12.2025" "bio" ⟨2025, 12, 24⟩
     (by decide) (by decide) (by decide)).1,
   (add_unique_key_amended emptyState 42 "24.12.2025" "bio" ⟨2025, 12, 24⟩
     (by decide) (by decide) (by decide)).2⟩

/-- C1 counterexample: the claim as stated fails for the valid triple
(42, 01.01.0001, bio).  The date parses (year 0001 is a valid
`datetime`), but `due - timedelta(days=1)` raises `OverflowError` after
the handler has already removed any previous job with the key, so Add
then List yields zero records with that key, not exactly one. -/
theorem add_min_date_counterexample :
    strptimeDMY "01.01.0001" = some ⟨1, 1, 1⟩ ∧
    (add emptyState 42 ["01.01.0001", "bio"]).2 = .notedThenCrash ∧
    ((add emptyState 42 ["01.01.0001", "bio"]).1.queue.countP
        (fun j => j.name == build_job_id 42 ⟨1, 1, 1⟩ "bio")) = 0 := by
  refine ⟨by decide, by decide, by decide⟩

/-- C3: every successfully added reminder is scheduled at due date minus
exactly one day (its fire time is the calendar day before the due date,
one day earlier in day numbers), and once the fire time is at or before
the scheduler's current time — in particular when it was already past at
Add time — the job fires at the very next scheduler run. -/
theorem fire_time_one_day_before (st : BotState) (chat : Int) (ds t : String) (due : Date)
    (h1 : strptimeDMY ds = some due) (h2 : t ∈ trashtypes) (h3 : due ≠ ⟨1, 1, 1⟩) :
    ∃ alarm_due,
      predDay due = some alarm_due ∧
      (add st chat [ds, t]).2 = .noted ∧
      (⟨build_job_id chat due t, alarm_due, ⟨chat, t, due⟩⟩ : Job) ∈
          (add st chat [ds, t]).1.queue ∧
      toDays alarm_due + 1 = toDays due ∧
      ∀ now, toDays alarm_due ≤ now →
        (⟨build_job_id chat due t, alarm_due, ⟨chat, t, due⟩⟩ : Job) ∈
          (schedulerRun now (add st chat [ds, t]).1).2 := by
  obtain ⟨alarm, hpd⟩ := predDay_some (strptime_valid h1) h3
  refine ⟨alarm, hpd, ?_, ?_, toDays_predDay (strptime_valid h1) hpd, ?_⟩
  · rw [add_eq_of_valid st chat ds t due alarm h1 h2 hpd]
  · rw [add_eq_of_valid st chat ds t due alarm h1 h2 hpd]
    exact mem_insertJob.mpr (Or.inl rfl)
  · intro now hnow
    unfold schedulerRun
    simp only []
    rw [List.mem_filter]
    refine ⟨?_, by simp [hnow]⟩
    rw [add_eq_of_valid st chat ds t due alarm h1 h2 hpd]
    exact mem_insertJob.mpr (Or.inl rfl)

/-- Witness for C3 at a concrete input. -/
theorem fire_time_witness :
    ∃ alarm_due,
      predDay ⟨2025, 12, 24⟩ = some alarm_due ∧
      (add emptyState 42 ["24.12.2025", "bio"]).2 = .noted ∧
      (⟨build_job_id 42 ⟨2025, 12, 24⟩ "bio", alarm_due, ⟨42, "bio", ⟨2025, 12, 24⟩⟩⟩ : Job) ∈
          (add emptyState 42 ["24.12.2025", "bio"]).1.queue ∧
      toDays alarm_due + 1 = toDays ⟨2025, 12, 24⟩ ∧
      ∀ now, toDays alarm_due ≤ now →
        (⟨build_job_id 42 ⟨2025, 12, 24⟩ "bio", alarm_due, ⟨42, "bio", ⟨2025, 12, 24⟩⟩⟩ : Job) ∈
          (schedulerRun now (add emptyState 42 ["24.12.2025", "bio"]).1).2 :=
  fire_time_one_day_before emptyState 42 "24.12.2025" "bio" ⟨2025, 12, 24⟩
    (by decide) (by decide) (by decide)

/-- C4: on validated input, Remove returns true exactly when a job with
the computed key existed; on a miss it returns false and leaves the queue
untouched; and afterwards no job with that key remains while every job
with a different key survives unchanged. -/
theorem remove_true_iff_existed (st : BotState) (chat : Int) (ds t : String) (due : Date)
    (h1 : strptimeDMY ds = some due) (h2 : t ∈ trashtypes) :
    ((remove st chat [ds, t]).2 = .removed ↔
        ∃ j ∈ st.queue, j.name = build_job_id chat due t) ∧
    ((remove st chat [ds, t]).2 = .notRemoved → (remove st chat [ds, t]).1 = st) ∧
    (∀ j ∈ (remove st chat [ds, t]).1.queue, j.name ≠ build_job_id chat due t) ∧
    (∀ j ∈ st.queue, j.name ≠ build_job_id chat due t →
        j ∈ (remove st chat [ds, t]).1.queue) := by
  rw [remove_eq_of_valid st chat ds t due h1 h2]
  simp only []
  refine ⟨?_, ?_, ?_, ?_⟩
  · rcases hb : (remove_job_if_exists (build_job_id chat due t) st.queue).2 with _ | _
    · simp only [hb, if_neg Bool.false_ne_true]
      constructor
      · intro hc
        exact absurd hc (by simp)
      · intro hex
        exact absurd (rjie_found.mpr hex) (by simp [hb])
    · simp only [hb, if_pos rfl]
      exact ⟨fun _ => rjie_found.mp hb, fun _ => rfl⟩
  · intro hnr
    rcases hb : (remove_job_if_exists (build_job_id chat due t) st.queue).2 with _ | _
    · have := rjie_not_found hb
      cases st
      simp only [BotState.mk.injEq]
      exact this
    · rw [hb] at hnr
      simp at hnr
  · intro j hj
    exact (rjie_mem.mp hj).2
  · intro j hj hne
    exact rjie_mem.mpr ⟨hj, hne⟩

/-- Witness for C4 at a concrete input. -/
theorem remove_witness :
    ((remove emptyState 42 ["24.12.2025", "bio"]).2 = .removed ↔
        ∃ j ∈ emptyState.queue, j.name = build_job_id 42 ⟨2025, 12, 24⟩ "bio") ∧
    ((remove emptyState 42 ["24.12.2025", "bio"]).2 = .notRemoved →
        (remove emptyState 42 ["24.12.2025", "bio"]).1 = emptyState) :=
  ⟨(remove_true_iff_existed emptyState 42 "24.12.2025" "bio" ⟨2025, 12, 24⟩
      (by decide) (by decide)).1,
   (remove_true_iff_existed emptyState 42 "24.12.2025" "bio" ⟨2025, 12, 24⟩
      (by decide) (by decide)).2.1⟩

/-- C5: an input whose date does not parse fails both Add and Remove with
the invalid-date reply, and an input whose date parses but whose category
is not one of the four tokens fails both with the invalid-category reply;
in both cases the state is returned exactly unchanged — validation happens
before any mutation. -/
theorem invalid_input_no_mutation (st : BotState) (chat : Int) (ds t : String) :
    (strptimeDMY ds = none →
        add st chat [ds, t] = (st, .badDate) ∧
        remove st chat [ds, t] = (st, .badDate)) ∧
    (∀ due, strptimeDMY ds = some due → t ∉ trashtypes →
        add st chat [ds, t] = (st, .badType) ∧
        remove st chat [ds, t] = (st, .badType)) := by
  constructor
  · intro hnone
    constructor
    · unfold add
      simp only [hnone]
    · unfold remove
      simp only [hnone]
  · intro due hsome hnott
    constructor
    · unfold add
      simp only [hsome]
      rw [if_neg hnott]
    · unfold remove
      simp only [hsome]
      rw [if_neg hnott]

/-- Witness for C5 at concrete inputs. -/
theorem invalid_input_witness :
    (add emptyState 42 ["32.01.2026", "bio"] = (emptyState, .badDate) ∧
     remove emptyState 42 ["32.01.2026", "bio"] = (emptyState, .badDate)) ∧
    (add emptyState 42 ["24.12.2025", "Bio"] = (emptyState, .badType) ∧
     remove emptyState 42 ["24.12.2025", "Bio"] = (emptyState, .badType)) :=
  ⟨(invalid_input_no_mutation emptyState 42 "32.01.2026" "bio").1 (by decide),
   (invalid_input_no_mutation emptyState 42 "24.12.2025" "Bio").2
     ⟨2025, 12, 24⟩ (by decide) (by decide)⟩

/-- C6: in every reachable state, List renders exactly the (due date,
category) pairs of all queued pending jobs, in queue order, which is
ascending by due date (the queue is kept sorted by fire time, one day
before the due date); on the empty queue it renders the empty sequence. -/
theorem list_all_sorted (ops : List Op) :
    show_list (runOps ops) =
        (runOps ops).queue.map (fun j => (j.ctx.due, j.ctx.trash_type)) ∧
    (show_list (runOps ops)).Pairwise (fun a b => toDays a.1 ≤ toDays b.1) ∧
    show_list emptyState = [] := by
  refine ⟨rfl, ?_, rfl⟩
  obtain ⟨hmem, hsort⟩ := good_runOps ops
  unfold show_list
  rw [List.pairwise_map]
  apply List.Pairwise.imp_of_mem ?_ hsort
  intro a b ha hb hle
  have la := (hmem a ha).2.2
  have lb := (hmem b hb).2.2
  simp only []
  omega

/-- C9: in every reachable state, every queued job's context carries a
category that is one of the four validated tokens, so the firing
callback's lookups — the job-context fields and the emoji table — always
succeed and the alarm message can always be built. -/
theorem alarm_lookup_safe (ops : List Op) (j : Job) (hj : j ∈ (runOps ops).queue) :
    j.ctx.trash_type ∈ trashtypes ∧
    (emojis.lookup j.ctx.trash_type).isSome ∧
    (alarmMsg j).isSome := by
  have htt := ((good_runOps ops).1 j hj).1
  refine ⟨htt, ?_, ?_⟩
  · rw [trashtypes_eq] at htt
    simp only [List.mem_cons, List.not_mem_nil, or_false] at htt
    rcases htt with h | h | h | h <;> rw [h] <;> rfl
  · unfold alarmMsg
    rw [trashtypes_eq] at htt
    simp only [List.mem_cons, List.not_mem_nil, or_false] at htt
    rcases htt with h | h | h | h <;> rw [h] <;> rfl

/-- Witness for C9 at a concrete reachable state. -/
theorem alarm_lookup_witness :
    (⟨build_job_id 42 ⟨2025, 12, 24⟩ "bio", ⟨2025, 12, 23⟩, ⟨42, "bio", ⟨2025, 12, 24⟩⟩⟩ : Job) ∈
        (runOps [.addOp 42 ["24.12.2025", "bio"]]).queue ∧
    "bio" ∈ trashtypes ∧ (emojis.lookup "bio").isSome :=
  ⟨by decide,
   (alarm_lookup_safe [.addOp 42 ["24.12.2025", "bio"]]
      ⟨build_job_id 42 ⟨2025, 12, 24⟩ "bio", ⟨2025, 12, 23⟩, ⟨42, "bio", ⟨2025, 12, 24⟩⟩⟩
      (by decide)).1,
   (alarm_lookup_safe [.addOp 42 ["24.12.2025", "bio"]]
      ⟨build_job_id 42 ⟨2025, 12, 24⟩ "bio", ⟨2025, 12, 23⟩, ⟨42, "bio", ⟨2025, 12, 24⟩⟩⟩
      (by decide)).2.1⟩

/-- C2 (evidence for the code bug): a pending reminder does not survive a
restart.  After a successful Add the job queue holds one job but the
durable pickle store is unchanged (the handlers never write to it, and
the persistence layer does not cover the job queue), so reopening the
store and restarting yields an empty queue: the pending reminder and its
timer are gone, contradicting the claim that every pending reminder is
reloaded and re-armed. -/
theorem restart_drops_pending :
    (procAdd startState 42 ["24.12.2025", "bio"]).1.jq.queue.length = 1 ∧
    (procAdd startState 42 ["24.12.2025", "bio"]).1.store = startState.store ∧
    (restart (procAdd startState 42 ["24.12.2025", "bio"]).1).jq.queue = [] :=
  ⟨by decide, rfl, rfl⟩

theorem entry_absorb_fired (evts : List SchedulerEvent) (f c : Nat) :
    evts.foldl entryStep (.fired, f, c) = (.fired, f, c) := by
  induction evts with
  | nil => rfl
  | cons e rest ih =>
    rw [List.foldl_cons, show entryStep (.fired, f, c) e = (.fired, f, c) by cases e <;> rfl]
    exact ih

theorem entry_absorb_cancelled (evts : List SchedulerEvent) (f c : Nat) :
    evts.foldl entryStep (.cancelled, f, c) = (.cancelled, f, c) := by
  induction evts with
  | nil => rfl
  | cons e rest ih =>
    rw [List.foldl_cons, show entryStep (.cancelled, f, c) e = (.cancelled, f, c) by cases e <;> rfl]
    exact ih

/-- C8: against an armed scheduler entry, any nonempty interleaving of
fire and cancel events produces exactly one outcome — one notification
sent or one cancellation won, never both and never neither; the final
state records which one happened, and the fired and cancelled states
absorb every further event, so neither is ever left. -/
theorem fire_cancel_exclusive (evts : List SchedulerEvent) (h : evts ≠ []) :
    ((entryRun evts).2.1 + (entryRun evts).2.2 = 1) ∧
    ((entryRun evts).1 = .fired ↔ (entryRun evts).2.1 = 1) ∧
    ((entryRun evts).1 = .cancelled ↔ (entryRun evts).2.2 = 1) ∧
    (∀ e f c, entryStep (.fired, f, c) e = (.fired, f, c) ∧
        entryStep (.cancelled, f, c) e = (.cancelled, f, c)) := by
  have habs : ∀ e f c, entryStep (.fired, f, c) e = (.fired, f, c) ∧
      entryStep (.cancelled, f, c) e = (.cancelled, f, c) :=
    fun e f c => ⟨by cases e <;> rfl, by cases e <;> rfl⟩
  rcases evts with _ | ⟨e, rest⟩
  · exact absurd rfl h
  · cases e with
    | fireEvt =>
      unfold entryRun
      rw [List.foldl_cons, show entryStep (.armed, 0, 0) .fireEvt = (.fired, 1, 0) from rfl,
          entry_absorb_fired]
      exact ⟨rfl, by simp, by simp, habs⟩
    | cancelEvt =>
      unfold entryRun
      rw [List.foldl_cons, show entryStep (.armed, 0, 0) .cancelEvt = (.cancelled, 0, 1) from rfl,
          entry_absorb_cancelled]
      exact ⟨rfl, by simp, by simp, habs⟩

/-- Witness for C8 at a concrete interleaving (a cancel racing a fire:
the cancel wins, the fire is a no-op). -/
theorem fire_cancel_witness :
    ((entryRun [.cancelEvt, .fireEvt]).2.1 + (entryRun [.cancelEvt, .fireEvt]).2.2 = 1) ∧
    ((entryRun [.cancelEvt, .fireEvt]).1 = .cancelled ↔
        (entryRun [.cancelEvt, .fireEvt]).2.2 = 1) :=
  ⟨(fire_cancel_exclusive [.cancelEvt, .fireEvt] (by decide)).1,
   (fire_cancel_exclusive [.cancelEvt, .fireEvt] (by decide)).2.2.1⟩

/-- C7 counterexample: the claim that only zero-padded dd.mm.yyyy dates
are accepted, and in particular that Add with `1.1.2026` fails with the
invalid-date error leaving the list unchanged, is false: `strptime`'s
`%d` and `%m` also match unpadded one-digit values, so `1.1.2026` parses
as January 1 2026 and the Add succeeds and schedules a job. -/
theorem lenient_date_counterexample :
    strptimeDMY "1.1.2026" = some ⟨2026, 1, 1⟩ ∧
    (add emptyState 42 ["1.1.2026", "plastik"]).2 = .noted ∧
    (add emptyState 42 ["1.1.2026", "plastik"]).1.queue.length = 1 :=
  ⟨by decide, by decide, by decide⟩

/-- C7 (amended): the date argument is accepted in day.month.year form
where day and month may be one or two digits (value-checked) and the year
exactly four digits — so `1.1.2026` is accepted and equivalent to
`01.01.2026` — while the category really is matched case-sensitively
against exactly the four tokens, any other token failing both Add and
Remove with the invalid-category reply and no mutation. -/
theorem date_category_amended (st : BotState) (chat : Int) (t : String)
    (h : t ∉ trashtypes) :
    strptimeDMY "1.1.2026" = strptimeDMY "01.01.2026" ∧
    strptimeDMY "1.1.2026" = some ⟨2026, 1, 1⟩ ∧
    trashtypes = ["bio", "rest", "papier", "plastik"] ∧
    add st chat ["01.01.2026", t] = (st, .badType) ∧
    remove st chat ["01.01.2026", t] = (st, .badType) := by
  refine ⟨by decide, by decide, trashtypes_eq, ?_, ?_⟩
  · unfold add
    simp only [show strptimeDMY "01.01.2026" = some ⟨2026, 1, 1⟩ by decide]
    rw [if_neg h]
  · unfold remove
    simp only [show strptimeDMY "01.01.2026" = some ⟨2026, 1, 1⟩ by decide]
    rw [if_neg h]

/-- Witness for C7 at a concrete non-token category (wrong case). -/
theorem date_category_witness :
    strptimeDMY "1.1.2026" = strptimeDMY "01.01.2026" ∧
    add emptyState 42 ["01.01.2026", "Plastik"] = (emptyState, .badType) :=
  ⟨(date_category_amended emptyState 42 "Plastik" (by decide)).1,
   (date_category_amended emptyState 42 "Plastik" (by decide)).2.2.2.1⟩

/-! ### Decimal-string lemmas (for the job-identifier injectivity) -/

theorem digVal_digChar {n : Nat} (h : n < 10) : digVal (digChar n) = n := by
  interval_cases n <;> rfl

theorem digChar_ne_dash {n : Nat} (h : n < 10) : digChar n ≠ '-' := by
  interval_cases n <;> decide

theorem unDigits_append (l : List Nat) (d : Nat) :
    unDigits (l ++ [d]) = 10 * unDigits l + d := by
  unfold unDigits
  rw [List.foldl_append]
  rfl

theorem unDigits_natDigitsAux : ∀ fuel n, n < fuel →
    unDigits (natDigitsAux fuel n) = n := by
  intro fuel
  induction fuel with
  | zero => omega
  | succ fuel ih =>
    intro n hn
    unfold natDigitsAux
    split
    · rename_i h10
      unfold unDigits
      simp
    · rename_i h10
      rw [unDigits_append, ih (n / 10) (by omega)]
      omega

theorem natDigitsAux_lt_ten : ∀ fuel n d, d ∈ natDigitsAux fuel n → d < 10 := by
  intro fuel
  induction fuel with
  | zero => intro n d hd; exact absurd hd (List.not_mem_nil d)
  | succ fuel ih =>
    intro n d hd
    unfold natDigitsAux at hd
    split at hd
    · rename_i h10
      rw [List.mem_singleton] at hd
      omega
    · rcases List.mem_append.mp hd with h | h
      · exact ih _ d h
      · rw [List.mem_singleton] at h
        omega

theorem natDigitsAux_ne_nil : ∀ fuel n, n < fuel → natDigitsAux fuel n ≠ [] := by
  intro fuel
  induction fuel with
  | zero => omega
  | succ fuel ih =>
    intro n hn
    unfold natDigitsAux
    split
    · exact List.cons_ne_nil n []
    · exact fun hc => List.append_ne_nil_of_right_ne_nil _ (List.cons_ne_nil _ []) hc

theorem natDigits_inj {a b : Nat} (h : natDigits a = natDigits b) : a = b := by
  have ha := unDigits_natDigitsAux (a + 1) a (by omega)
  have hb := unDigits_natDigitsAux (b + 1) b (by omega)
  unfold natDigits at h
  rw [h] at ha
  rw [hb] at ha
  omega

theorem map_digVal_digChar (l : List Nat) (h : ∀ d ∈ l, d < 10) :
    (l.map digChar).map digVal = l := by
  induction l with
  | nil => rfl
  | cons d rest ih =>
    simp only [List.map_cons, List.cons.injEq]
    exact ⟨digVal_digChar (h d (List.mem_cons_self d rest)),
           ih fun x hx => h x (List.mem_cons_of_mem d hx)⟩

theorem natStr_inj {a b : Nat} (h : natStr a = natStr b) : a = b := by
  unfold natStr at h
  have hmap := congrArg (List.map digVal) h
  rw [map_digVal_digChar (natDigits a) (fun d hd => natDigitsAux_lt_ten (a + 1) a d hd),
      map_digVal_digChar (natDigits b) (fun d hd => natDigitsAux_lt_ten (b + 1) b d hd)] at hmap
  exact natDigits_inj hmap

theorem natStr_ne_nil (n : Nat) : natStr n ≠ [] := by
  unfold natStr natDigits
  intro hc
  exact natDigitsAux_ne_nil (n + 1) n (by omega) (List.map_eq_nil_iff.mp hc)

theorem natStr_ne_dash {n : Nat} {c : Char} (hc : c ∈ natStr n) : c ≠ '-' := by
  unfold natStr at hc
  rw [List.mem_map] at hc
  obtain ⟨d, hd, rfl⟩ := hc
  exact digChar_ne_dash (natDigitsAux_lt_ten _ _ d hd)

theorem intStr_inj {a b : Int} (h : intStr a = intStr b) : a = b := by
  unfold intStr at h
  split at h <;> split at h
  · rename_i ha hb
    rw [List.cons.injEq] at h
    have := natStr_inj h.2
    omega
  · rename_i ha hb
    rcases hn : natStr b.toNat with _ | ⟨c, rest⟩
    · exact absurd hn (natStr_ne_nil _)
    · rw [hn, List.cons.injEq] at h
      have : c ∈ natStr b.toNat := by rw [hn]; exact List.mem_cons_self c rest
      exact absurd h.1.symm (natStr_ne_dash this)
  · rename_i ha hb
    rcases hn : natStr a.toNat with _ | ⟨c, rest⟩
    · exact absurd hn (natStr_ne_nil _)
    · rw [hn, List.cons.injEq] at h
      have : c ∈ natStr a.toNat := by rw [hn]; exact List.mem_cons_self c rest
      exact absurd h.1 (natStr_ne_dash this)
  · rename_i ha hb
    have := natStr_inj h
    omega

theorem daysInMonth_le (y m : Nat) : daysInMonth y m ≤ 31 := by
  unfold daysInMonth
  split
  · split <;> omega
  · split <;> omega

theorem dateStr_inj {d1 d2 : Date} (hv1 : validDate d1) (hv2 : validDate d2)
    (h : dateStr d1 = dateStr d2) : d1 = d2 := by
  obtain ⟨y1, m1, day1⟩ := d1
  obtain ⟨y2, m2, day2⟩ := d2
  unfold validDate at hv1 hv2
  simp only [] at hv1 hv2
  have hd1 : day1 ≤ 31 := le_trans hv1.2.2.2.2.2 (daysInMonth_le y1 m1)
  have hd2 : day2 ≤ 31 := le_trans hv2.2.2.2.2.2 (daysInMonth_le y2 m2)
  obtain ⟨hy1a, hy1b, hm1a, hm1b, -, -⟩ := hv1
  obtain ⟨hy2a, hy2b, hm2a, hm2b, -, -⟩ := hv2
  unfold dateStr at h
  injection h with e1 h
  injection h with e2 h
  injection h with e3 h
  injection h with e4 h
  injection h with e5 h
  injection h with e6 h
  injection h with e7 h
  injection h with e8 h
  injection h with e9 h
  injection h with e10 h
  have f1 := congrArg digVal e1
  rw [digVal_digChar (show y1 / 1000 < 10 by omega),
      digVal_digChar (show y2 / 1000 < 10 by omega)] at f1
  have f2 := congrArg digVal e2
  rw [digVal_digChar (show y1 / 100 % 10 < 10 by omega),
      digVal_digChar (show y2 / 100 % 10 < 10 by omega)] at f2
  have f3 := congrArg digVal e3
  rw [digVal_digChar (show y1 / 10 % 10 < 10 by omega),
      digVal_digChar (show y2 / 10 % 10 < 10 by omega)] at f3
  have f4 := congrArg digVal e4
  rw [digVal_digChar (show y1 % 10 < 10 by omega),
      digVal_digChar (show y2 % 10 < 10 by omega)] at f4
  have f6 := congrArg digVal e6
  rw [digVal_digChar (show m1 / 10 < 10 by omega),
      digVal_digChar (show m2 / 10 < 10 by omega)] at f6
  have f7 := congrArg digVal e7
  rw [digVal_digChar (show m1 % 10 < 10 by omega),
      digVal_digChar (show m2 % 10 < 10 by omega)] at f7
  have f9 := congrArg digVal e9
  rw [digVal_digChar (show day1 / 10 < 10 by omega),
      digVal_digChar (show day2 / 10 < 10 by omega)] at f9
  have f10 := congrArg digVal e10
  rw [digVal_digChar (show day1 % 10 < 10 by omega),
      digVal_digChar (show day2 % 10 < 10 by omega)] at f10
  simp only [Date.mk.injEq]
  omega

/-- The character-list decomposition of a job identifier. -/
theorem key_data (c : Int) (d : Date) (t : String) :
    (build_job_id c d t).data = intStr c ++ dateStr d ++ t.data := by
  obtain ⟨tl⟩ := t
  rfl

/-- Stripping the (reversed) category token off a reversed job identifier:
the four tokens end in four distinct letters, so the token and the rest
are both determined. -/
theorem head_clash {x y : Char} {l1 l2 : List Char} (hxy : x ≠ y)
    (h : x :: l1 = y :: l2) : False := by
  injection h with h1 h2
  exact hxy h1

theorem strip_token {t1 t2 : String} {A B : List Char}
    (ht1 : t1 ∈ trashtypes) (ht2 : t2 ∈ trashtypes)
    (h : t1.data.reverse ++ A = t2.data.reverse ++ B) : t1 = t2 ∧ A = B := by
  rw [trashtypes_eq] at ht1 ht2
  simp only [List.mem_cons, List.not_mem_nil, or_false] at ht1 ht2
  rcases ht1 with rfl | rfl | rfl | rfl <;> rcases ht2 with rfl | rfl | rfl | rfl <;>
    first
      | exact ⟨rfl, List.append_cancel_left h⟩
      | exact (head_clash (by decide) h).elim

/-- C10: the job-identity function is injective on its actual input
domain: for integer chat ids, datetimes representable by the parser, and
categories among the four tokens, equal job identifiers force equal
recipient, equal due date and equal category — an Add or Remove for one
reminder can never hit a different reminder's queue entry. -/
theorem build_job_id_injective (c1 c2 : Int) (d1 d2 : Date) (t1 t2 : String)
    (hv1 : validDate d1) (hv2 : validDate d2)
    (ht1 : t1 ∈ trashtypes) (ht2 : t2 ∈ trashtypes)
    (heq : build_job_id c1 d1 t1 = build_job_id c2 d2 t2) :
    c1 = c2 ∧ d1 = d2 ∧ t1 = t2 := by
  have hdata := congrArg String.data heq
  rw [key_data, key_data] at hdata
  have hrev := congrArg List.reverse hdata
  simp only [List.reverse_append] at hrev
  obtain ⟨hteq, hAB⟩ := strip_token ht1 ht2 hrev
  obtain ⟨hDrev, hIrev⟩ := List.append_inj hAB (by simp [dateStr])
  exact ⟨intStr_inj (List.reverse_injective hIrev),
         dateStr_inj hv1 hv2 (List.reverse_injective hDrev), hteq⟩

/-- Witness for C10 at a concrete input. -/
theorem build_job_id_witness :
    validDate ⟨2025, 12, 24⟩ ∧ "bio" ∈ trashtypes ∧
    ((42 : Int) = 42 ∧ (⟨2025, 12, 24⟩ : Date) = ⟨2025, 12, 24⟩ ∧ ("bio" : String) = "bio") :=
  ⟨by decide, by decide,
   build_job_id_injective 42 42 ⟨2025, 12, 24⟩ ⟨2025, 12, 24⟩ "bio" "bio"
     (by decide) (by decide) (by decide) (by decide) rfl⟩

end Muellbot
